import Mathlib

/-
Verification of the CCX field-override module (lms/djangoapps/ccx/overrides.py).

The module resolves per-student field overrides for course content blocks in the
custom-courses-for-edX (CCX) feature.  The embedding below translates, function by
function, the Python source into Lean:

  * CustomCoursesForEdxOverrideProvider.get  -> Ccx.CustomCoursesForEdxOverrideProvider.get
  * get_current_ccx                          -> Ccx.get_current_ccx
  * get_override_for_ccx                     -> Ccx.get_override_for_ccx
  * _get_overrides_for_ccx                   -> Ccx.under_get_overrides_for_ccx
  * override_field_for_ccx                   -> Ccx.override_field_for_ccx
  * clear_override_for_ccx                   -> Ccx.clear_override_for_ccx

External collaborators that the source imports but that are not part of this
repository (the Django ORM and transaction manager, the opaque_keys / ccx_keys
locator library, Python's json module and Python dicts) are modelled from the
spec's description of them; each such definition carries a comment saying so.
Blocks are modelled with a total field map `fields : String -> Field` (every
claim concerns fields the block declares, so the KeyError path of the Python
dict lookup `block.fields[name]` is never exercised).
-/

set_option autoImplicit false

namespace Ccx

/-- JSON values produced and consumed by the per-field codecs (`field.to_json` /
`field.from_json`).  Only atomic shapes are needed by the claims. -/
inductive Json where
  | null : Json
  | num : Int → Json
  | str : String → Json
deriving DecidableEq, Repr

/-- Modelled from the spec: Python's `json` module (standard library, external to this
repository).  The spec treats the stored serialized value as an opaque JSON wrapping of
the codec's external form ("it only JSON-wraps/unwraps the codec's own external form"),
so the serialized text is modelled as a wrapper type with `json_dumps` / `json_loads`
mutually inverse. -/
structure SerializedJson where
  payload : Json
deriving DecidableEq, Repr

/-- Python `json.dumps`. -/
def json_dumps (j : Json) : SerializedJson := ⟨j⟩

/-- Python `json.loads`. -/
def json_loads (s : SerializedJson) : Json := s.payload

/-- Field values (the Python objects held by block fields and passed as defaults). -/
inductive Value where
  | none : Value
  | int : Int → Value
  | str : String → Value
deriving DecidableEq, Repr

/-- Modelled from the spec: course keys from the external opaque_keys / ccx_keys
libraries.  A key is either a plain course locator (base form) or a `CCXLocator`
carrying the base course together with the embedded ccx id. -/
inductive CourseKey where
  | plain : Nat → CourseKey
  | ccxLoc : Nat → Nat → CourseKey
deriving DecidableEq, Repr

/-- The `isinstance(course_key, CCXLocator)` test. -/
def CourseKey.isCCX : CourseKey → Bool
  | .plain _ => false
  | .ccxLoc _ _ => true

/-- `CCXLocator.to_course_locator`: strip the ccx qualifier (identity on plain keys). -/
def CourseKey.to_course_locator : CourseKey → CourseKey
  | .plain c => .plain c
  | .ccxLoc c _ => .plain c

/-- Modelled from the spec: usage keys (block locations).  A location is in
context-qualified form exactly when its course key is a `CCXLocator`. -/
structure UsageKey where
  course_key : CourseKey
  block_id : Nat
deriving DecidableEq, Repr

/-- The `isinstance(block.location, CCXBlockUsageLocator)` test. -/
def UsageKey.isCCXBlock (u : UsageKey) : Bool := u.course_key.isCCX

/-- `CCXBlockUsageLocator.to_block_locator`: the same block located by the base course key. -/
def UsageKey.to_block_locator (u : UsageKey) : UsageKey :=
  { course_key := u.course_key.to_course_locator, block_id := u.block_id }

/-- A per-field codec, supplied by the content block (`field.to_json` encodes a value
into its externally serializable form, `field.from_json` decodes it back). -/
structure Field where
  to_json : Value → Json
  from_json : Json → Value

/-- The possible shapes of `getattr(block, 'id', None)` as dispatched by the provider:
a `CourseKey` instance, a `UsageKey` instance, or anything else (including an absent
attribute), which falls through to the `location` branch. -/
inductive Identifier where
  | courseKey : CourseKey → Identifier
  | usageKey : UsageKey → Identifier
  | unrecognized : Identifier
deriving DecidableEq, Repr

/-- The per-ccx mapping of field name to deserialized override value (a Python dict). -/
abbrev Overrides := List (String × Value)

/-- The transient `_ccx_overrides` attribute: a dict from ccx id to an `Overrides` dict. -/
abbrev CcxCache := List (Nat × Overrides)

/-- A content block as the module sees it: an `id` attribute for course-key dispatch, an
optional `location` attribute (accessing a missing one raises AttributeError), the
per-field codecs, and the optional transient `_ccx_overrides` cache attribute. -/
structure Block where
  id : Identifier
  location : Option UsageKey
  fields : String → Field
  ccx_overrides : Option CcxCache

/-- Modelled from the spec: Python dict operations over association lists.  `Dict.get`
is `d.get(k)`, `Dict.set` is `d[k] = v`, `Dict.del` is `del d[k]` (returning `none`
exactly when the key is absent, i.e. when Python raises KeyError). -/
def Dict.get {α β : Type} [DecidableEq α] : List (α × β) → α → Option β
  | [], _ => Option.none
  | (k', v) :: t, k => if k' = k then some v else Dict.get t k

/-- Python dict assignment `d[k] = v`: replace the entry if the key is present,
append it otherwise. -/
def Dict.set {α β : Type} [DecidableEq α] : List (α × β) → α → β → List (α × β)
  | [], k, v => [(k, v)]
  | (k', v') :: t, k, v => if k' = k then (k, v) :: t else (k', v') :: Dict.set t k v

/-- Python dict deletion `del d[k]`: `none` when the key is absent (KeyError). -/
def Dict.del {α β : Type} [DecidableEq α] (l : List (α × β)) (k : α) :
    Option (List (α × β)) :=
  if l.any (fun p => decide (p.1 = k)) then some (l.filter (fun p => !decide (p.1 = k)))
  else Option.none

/-- A row of the CcxFieldOverride table: (ccx reference, location, field name,
serialized value).  Modelled from the spec: the table itself lives in the ccx app's
models module, which is not under src/; the spec describes it as a relational store
keyed by (context, location, field-name) with a uniqueness constraint on that key. -/
structure OverrideRecord where
  ccx : Nat
  location : UsageKey
  field : String
  value : SerializedJson
deriving DecidableEq, Repr

/-- Modelled from the spec: a CustomCourseForEdX (Context) record, identified by an
opaque integer primary key; the module only ever reads `ccx.id` and passes the record
as a foreign-key filter. -/
structure CustomCourseForEdX where
  id : Nat
deriving DecidableEq, Repr

/-- The persistent state visible to the module: the table of existing
CustomCourseForEdX primary keys and the CcxFieldOverride table. -/
structure Db where
  ccxTable : List Nat
  store : List OverrideRecord
deriving DecidableEq, Repr

/-- Python-level exceptions that can cross the module's function boundaries. -/
inductive PyError where
  | doesNotExist : PyError
  | multipleObjectsReturned : PyError
  | integrityError : PyError
  | keyError : PyError
  | attributeError : PyError
deriving DecidableEq, Repr

/-- The uniqueness key of the CcxFieldOverride table: (ccx, location, field). -/
def keyMatch (r : OverrideRecord) (ci : Nat) (loc : UsageKey) (f : String) : Bool :=
  decide (r.ccx = ci ∧ r.location = loc ∧ r.field = f)

/-- The filter used by the bulk read: (ccx, location) only. -/
def locMatch (r : OverrideRecord) (ci : Nat) (loc : UsageKey) : Bool :=
  decide (r.ccx = ci ∧ r.location = loc)

/-- Modelled from the spec: `CcxFieldOverride.objects.create(...)` — insert a row,
raising IntegrityError when the uniqueness constraint on (ccx, location, field) is
violated. -/
def storeCreate (l : List OverrideRecord) (r : OverrideRecord) :
    Except PyError (List OverrideRecord) :=
  if l.any (fun r0 => keyMatch r0 r.ccx r.location r.field) then .error .integrityError
  else .ok (l ++ [r])

/-- Modelled from the spec: `CcxFieldOverride.objects.get(ccx=..., location=...,
field=...)` — DoesNotExist on no match, MultipleObjectsReturned on several. -/
def storeGet (l : List OverrideRecord) (ci : Nat) (loc : UsageKey) (f : String) :
    Except PyError OverrideRecord :=
  match l.filter (fun r => keyMatch r ci loc f) with
  | [] => .error .doesNotExist
  | [r] => .ok r
  | _ :: _ :: _ => .error .multipleObjectsReturned

/-- Modelled from the spec: `override.value = value; override.save()` — overwrite the
value of the row(s) carrying the key. -/
def storeUpdateValue (l : List OverrideRecord) (ci : Nat) (loc : UsageKey) (f : String)
    (v : SerializedJson) : List OverrideRecord :=
  l.map (fun r => if keyMatch r ci loc f then { r with value := v } else r)

/-- Modelled from the spec: `....get(...).delete()` — remove the row(s) carrying the key. -/
def storeDelete (l : List OverrideRecord) (ci : Nat) (loc : UsageKey) (f : String) :
    List OverrideRecord :=
  l.filter (fun r => !keyMatch r ci loc f)

/-- Source `get_current_ccx(course_id)`: return the ccx active for this course.  When
the key is a `CCXLocator`, load the CustomCourseForEdX record by its embedded primary
key (`CustomCourseForEdX.objects.get(pk=ccx_id)` raises DoesNotExist when absent,
propagated); otherwise return `None`.  All in-repo callers pass a key instance, so the
`CourseKey.from_string` branch for string arguments (external opaque_keys parser) is
not modelled. -/
def get_current_ccx (db : Db) (course_id : CourseKey) :
    Except PyError (Option CustomCourseForEdX) :=
  match course_id with
  | .ccxLoc _ ccx_id =>
    if db.ccxTable.contains ccx_id then .ok (some ⟨ccx_id⟩) else .error .doesNotExist
  | .plain _ => .ok Option.none

/-- Source `_get_overrides_for_ccx(ccx, block)`: build the dict mapping field name to
overridden value for this block and ccx.  The block's location is stripped of a CCX
qualifier for the query ("block as passed in may have a location specific to a CCX, we
must strip that for this query"); each row's value is decoded with the field's own
codec after `json.loads`. -/
def under_get_overrides_for_ccx (db : Db) (ccx : CustomCourseForEdX) (block : Block) :
    Except PyError Overrides :=
  match block.location with
  | Option.none => .error .attributeError
  | some bloc =>
    let location := if bloc.isCCXBlock then bloc.to_block_locator else bloc
    let query := db.store.filter (fun r => locMatch r ccx.id location)
    .ok (query.foldl
      (fun ov r => Dict.set ov r.field ((block.fields r.field).from_json (json_loads r.value)))
      [])

/-- Source `get_override_for_ccx(ccx, block, name, default)`: ensure the block carries
a `_ccx_overrides` dict, consult it under `ccx.id`, fetch-and-cache on a miss, and
return `overrides.get(name, default)`.  The result is the returned value, the block
with its (possibly) updated cache attribute, and the number of override-store queries
performed. -/
def get_override_for_ccx (db : Db) (ccx : CustomCourseForEdX) (block : Block)
    (name : String) (default : Value) : (Except PyError Value) × Block × Nat :=
  let cache0 := block.ccx_overrides.getD []
  let block1 : Block := { block with ccx_overrides := some cache0 }
  match Dict.get cache0 ccx.id with
  | some overrides => (.ok ((Dict.get overrides name).getD default), block1, 0)
  | Option.none =>
    match under_get_overrides_for_ccx db ccx block1 with
    | .error e => (.error e, block1, 0)
    | .ok overrides =>
      (.ok ((Dict.get overrides name).getD default),
        { block1 with ccx_overrides := some (Dict.set cache0 ccx.id overrides) }, 1)

/-- The provider's identifier dispatch, extracted from the head of
`CustomCoursesForEdxOverrideProvider.get`: a `CourseKey` id is used directly, a
`UsageKey` id contributes its course key, otherwise a `location` attribute's course
key is used; with none of those, an error is logged (second component `true`) and no
course id is resolved. -/
def resolve_course_id (block : Block) : Option CourseKey × Bool :=
  match block.id with
  | .courseKey k => (some k, false)
  | .usageKey u => (some u.course_key, false)
  | .unrecognized =>
    match block.location with
    | some loc => (some loc.course_key, false)
    | Option.none => (Option.none, true)

/-- Source `CustomCoursesForEdxOverrideProvider.get(block, name, default)`: resolve
the course id from the block, look up the active ccx, and delegate to
`get_override_for_ccx` when one is found; otherwise return the default.  The result
carries the value (or propagated exception), the block after the call, the number of
override-store queries performed, and whether a resolution error was logged. -/
def CustomCoursesForEdxOverrideProvider.get (db : Db) (block : Block) (name : String)
    (default : Value) : (Except PyError Value) × Block × Nat × Bool :=
  let rid := resolve_course_id block
  match rid.1 with
  | Option.none => (.ok default, block, 0, rid.2)
  | some course_id =>
    match get_current_ccx db course_id with
    | .error e => (.error e, block, 0, rid.2)
    | .ok Option.none => (.ok default, block, 0, rid.2)
    | .ok (some ccx) =>
      let r := get_override_for_ccx db ccx block name default
      (r.1, r.2.1, r.2.2, rid.2)

/-- The try/except block of `override_field_for_ccx`: attempt the insert; on
IntegrityError, `transaction.commit()` and fall back to fetching the existing row
(DoesNotExist or MultipleObjectsReturned from that fetch propagate); the resulting
store state is the one `override.save()` will then update. -/
def overrideSaveAttempt (store : List OverrideRecord) (ci : Nat) (loc : UsageKey)
    (f : String) (ser : SerializedJson) : Except PyError (List OverrideRecord) :=
  match storeCreate store { ccx := ci, location := loc, field := f, value := ser } with
  | .ok st => .ok st
  | .error _ =>
    match storeGet store ci loc f with
    | .error e => .error e
    | .ok _ => .ok store

/-- Source `override_field_for_ccx(ccx, block, name, value)`: serialize the value with
the field's own codec and `json.dumps`, insert a row at `(ccx, block.location, name)`
(note: the location is NOT stripped of a CCX qualifier here), on IntegrityError commit
and fall back to fetching the existing row and overwriting its value, save, then drop
the block's cached entry for `ccx.id` (raising KeyError when the `_ccx_overrides` dict
exists without that entry).  The function runs under Django's
`@transaction.commit_on_success` (modelled from the spec, section 5: the write "must
be committed or rolled back"): when an exception escapes, work since the last commit
point is rolled back, so the error outcomes leave the entry store unchanged (the
explicit `transaction.commit()` on the conflict path commits only the state from
before the failed insert). -/
def override_field_for_ccx (db : Db) (ccx : CustomCourseForEdX) (block : Block)
    (name : String) (value : Value) : (Except PyError Unit) × Db × Block :=
  match block.location with
  | Option.none => (.error .attributeError, db, block)
  | some loc =>
    let field := block.fields name
    let ser := json_dumps (field.to_json value)
    match overrideSaveAttempt db.store ccx.id loc name ser with
    | .error e => (.error e, db, block)
    | .ok st0 =>
      let st := storeUpdateValue st0 ccx.id loc name ser
      match block.ccx_overrides with
      | Option.none => (.ok (), { db with store := st }, block)
      | some cache =>
        match Dict.del cache ccx.id with
        | some cache1 =>
          (.ok (), { db with store := st }, { block with ccx_overrides := some cache1 })
        | Option.none => (.error .keyError, db, block)

/-- Source `clear_override_for_ccx(ccx, block, name)`: fetch the row at
`(ccx, block.location, name)` and delete it, then drop the block's cached entry for
`ccx.id`; `except CcxFieldOverride.DoesNotExist: pass` makes a missing row a no-op.
The cache deletion sits inside the try block, so it is skipped entirely when the row
is absent, and a KeyError from it (cache dict present without the `ccx.id` entry) is
not caught.  No transaction wrapper: the row deletion has already taken effect when
the KeyError escapes. -/
def clear_override_for_ccx (db : Db) (ccx : CustomCourseForEdX) (block : Block)
    (name : String) : (Except PyError Unit) × Db × Block :=
  match block.location with
  | Option.none => (.error .attributeError, db, block)
  | some loc =>
    match storeGet db.store ccx.id loc name with
    | .error .doesNotExist => (.ok (), db, block)
    | .error e => (.error e, db, block)
    | .ok _ =>
      let st := storeDelete db.store ccx.id loc name
      match block.ccx_overrides with
      | Option.none => (.ok (), { db with store := st }, block)
      | some cache =>
        match Dict.del cache ccx.id with
        | some cache1 =>
          (.ok (), { db with store := st }, { block with ccx_overrides := some cache1 })
        | Option.none => (.error .keyError, { db with store := st }, block)

/-- The block's cached override mapping for a ccx id, if any. -/
def Block.cachedEntry (b : Block) (i : Nat) : Option Overrides :=
  match b.ccx_overrides with
  | Option.none => Option.none
  | some c => Dict.get c i

/-- The result of applying each row's field codec and `json.loads` to its stored
value, as done inside `under_get_overrides_for_ccx`. -/
def decodeWith (block : Block) (r : OverrideRecord) : Value :=
  (block.fields r.field).from_json (json_loads r.value)

/-- The value of the last row carrying a given field name, decoded; it is what the
dict built by `under_get_overrides_for_ccx` ends up holding for that name. -/
def lastDecoded (dec : OverrideRecord → Value) : List OverrideRecord → String → Option Value
  | [], _ => Option.none
  | r :: t, f =>
    match lastDecoded dec t f with
    | some v => some v
    | Option.none => if r.field = f then some (dec r) else Option.none

/-- A field codec that encodes atomic values as themselves; it round-trips. -/
def sampleField : Field where
  to_json := fun v =>
    match v with
    | .none => .null
    | .int n => .num n
    | .str s => .str s
  from_json := fun j =>
    match j with
    | .null => .none
    | .num n => .int n
    | .str s => .str s

/-- A base-form block location in course 7. -/
def baseLoc : UsageKey := { course_key := .plain 7, block_id := 3 }

/-- The same block location in context-qualified (CCX) form, for ccx 1. -/
def qualLoc : UsageKey := { course_key := .ccxLoc 7 1, block_id := 3 }

/-- The ccx record with primary key 1. -/
def ccx1 : CustomCourseForEdX := ⟨1⟩

/-- A database holding the ccx record 1 and an empty override store. -/
def db0 : Db := { ccxTable := [1], store := [] }

/-- A database holding ccx 1 and one stored override row for (1, baseLoc, "f"). -/
def dbWithRec : Db :=
  { ccxTable := [1],
    store := [{ ccx := 1, location := baseLoc, field := "f",
                value := json_dumps (Json.num 9) }] }

/-- A block at the base-form location, with no transient cache attribute. -/
def blockBase : Block where
  id := .usageKey qualLoc
  location := some baseLoc
  fields := fun _ => sampleField
  ccx_overrides := Option.none

/-- A block whose location is context-qualified, with no transient cache attribute. -/
def blockQual : Block where
  id := .usageKey qualLoc
  location := some qualLoc
  fields := fun _ => sampleField
  ccx_overrides := Option.none

/-- The base-form block with a populated cache entry for ccx 1. -/
def blockCached : Block := { blockBase with ccx_overrides := some [(1, [("f", Value.int 7)])] }

/-- The base-form block with a cache dict present but no entry for ccx 1. -/
def blockEmptyCache : Block := { blockBase with ccx_overrides := some [] }

/-- The base-form block with a cache dict holding an (empty) entry for ccx 1. -/
def blockCacheEntry1 : Block := { blockBase with ccx_overrides := some [(1, ([] : Overrides))] }

/-- A block with an unrecognized id attribute and no location attribute. -/
def blockNoKeys : Block where
  id := .unrecognized
  location := Option.none
  fields := fun _ => sampleField
  ccx_overrides := Option.none

/-- A block living in a plain (non-ccx) course. -/
def blockPlain : Block where
  id := .courseKey (.plain 7)
  location := some baseLoc
  fields := fun _ => sampleField
  ccx_overrides := Option.none

/-- A block whose id is a CCXLocator-qualified course key for a ccx with no record. -/
def blockMissingCcx : Block := { blockPlain with id := .courseKey (.ccxLoc 7 2) }

section DictLemmas

variable {α β : Type} [DecidableEq α]

lemma Dict.get_set_self (l : List (α × β)) (k : α) (v : β) :
    Dict.get (Dict.set l k v) k = some v := by
  induction l with
  | nil => simp [Dict.set, Dict.get]
  | cons p t ih =>
    obtain ⟨a, b⟩ := p
    by_cases h : a = k
    · simp [Dict.set, Dict.get, h]
    · simp [Dict.set, Dict.get, h, ih]

lemma Dict.get_set_ne (l : List (α × β)) (k k' : α) (v : β) (h : k ≠ k') :
    Dict.get (Dict.set l k v) k' = Dict.get l k' := by
  induction l with
  | nil => simp [Dict.set, Dict.get, h]
  | cons p t ih =>
    obtain ⟨a, b⟩ := p
    by_cases ha : a = k
    · subst ha
      simp [Dict.set, Dict.get, h]
    · simp [Dict.set, Dict.get, ha, ih]

lemma Dict.get_eq_none_iff_any (l : List (α × β)) (k : α) :
    Dict.get l k = Option.none ↔ l.any (fun p => decide (p.1 = k)) = false := by
  induction l with
  | nil => simp [Dict.get]
  | cons p t ih =>
    obtain ⟨a, b⟩ := p
    by_cases h : a = k
    · simp [Dict.get, h]
    · simp [Dict.get, h, ih]

lemma Dict.get_filter_out (l : List (α × β)) (k : α) :
    Dict.get (l.filter (fun p => !decide (p.1 = k))) k = Option.none := by
  induction l with
  | nil => simp [Dict.get]
  | cons p t ih =>
    obtain ⟨a, b⟩ := p
    by_cases h : a = k
    · simpa [List.filter, h] using ih
    · simpa [List.filter, h, Dict.get] using ih

lemma Dict.get_of_del (l l' : List (α × β)) (k : α) (h : Dict.del l k = some l') :
    Dict.get l' k = Option.none := by
  unfold Dict.del at h
  split at h
  · cases h
    exact Dict.get_filter_out l k
  · cases h

lemma Dict.del_eq_none_iff (l : List (α × β)) (k : α) :
    Dict.del l k = Option.none ↔ Dict.get l k = Option.none := by
  rw [Dict.get_eq_none_iff_any]
  unfold Dict.del
  constructor
  · intro h
    by_cases ha : l.any (fun p => decide (p.1 = k)) = true
    · simp [ha] at h
    · exact Bool.eq_false_iff.mpr ha
  · intro h
    simp [h]

end DictLemmas

section StoreLemmas

lemma filter_nil_iff_any_false {γ : Type} (p : γ → Bool) (l : List γ) :
    l.filter p = [] ↔ l.any p = false := by
  induction l with
  | nil => simp
  | cons a t ih =>
    by_cases h : p a
    · simp [List.filter, h]
    · simp [List.filter, h, ih]

lemma keyMatch_components {r : OverrideRecord} {ci : Nat} {loc : UsageKey} {f : String}
    (h : keyMatch r ci loc f = true) : r.ccx = ci ∧ r.location = loc ∧ r.field = f := by
  simpa [keyMatch] using h

lemma keyMatch_update_value (r : OverrideRecord) (ci : Nat) (loc : UsageKey) (f : String)
    (v : SerializedJson) : keyMatch { r with value := v } ci loc f = keyMatch r ci loc f := rfl

lemma filter_key_update (l : List OverrideRecord) (ci : Nat) (loc : UsageKey) (f : String)
    (v : SerializedJson) :
    (storeUpdateValue l ci loc f v).filter (fun r => keyMatch r ci loc f)
      = (l.filter (fun r => keyMatch r ci loc f)).map (fun r => { r with value := v }) := by
  induction l with
  | nil => simp [storeUpdateValue]
  | cons r t ih =>
    by_cases h : keyMatch r ci loc f = true
    · simp [storeUpdateValue, List.filter, h, keyMatch_update_value] at ih ⊢
      simpa [keyMatch_update_value, h] using ih
    · simp only [storeUpdateValue, List.map, List.filter, h, if_neg] at ih ⊢
      simp only [Bool.not_eq_true] at h
      simp [h, ih]

lemma filter_loc_then_field (l : List OverrideRecord) (ci : Nat) (loc : UsageKey) (f : String) :
    (l.filter (fun r => locMatch r ci loc)).filter (fun r => decide (r.field = f))
      = l.filter (fun r => keyMatch r ci loc f) := by
  rw [List.filter_filter]
  apply List.filter_congr
  intro r _
  by_cases h1 : r.ccx = ci <;> by_cases h2 : r.location = loc <;> by_cases h3 : r.field = f <;>
    simp [locMatch, keyMatch, h1, h2, h3]

lemma filter_key_delete (l : List OverrideRecord) (ci : Nat) (loc : UsageKey) (f : String) :
    (storeDelete l ci loc f).filter (fun r => keyMatch r ci loc f) = [] := by
  induction l with
  | nil => simp [storeDelete]
  | cons r t ih =>
    by_cases h : keyMatch r ci loc f = true
    · simp only [storeDelete, List.filter, h] at ih ⊢
      simp
    · simp only [Bool.not_eq_true] at h
      simp only [storeDelete, List.filter, h] at ih ⊢
      simp

lemma filter_key_append (l : List OverrideRecord) (r : OverrideRecord) (p : OverrideRecord → Bool) :
    (l ++ [r]).filter p = l.filter p ++ if p r then [r] else [] := by
  rw [List.filter_append]
  by_cases h : p r
  · simp [List.filter, h]
  · simp only [Bool.not_eq_true] at h
    simp [List.filter, h]

lemma get_foldl_set (dec : OverrideRecord → Value) (f : String) :
    ∀ (l : List OverrideRecord) (init : Overrides),
      Dict.get (l.foldl (fun ov r => Dict.set ov r.field (dec r)) init) f
        = match lastDecoded dec l f with
          | some v => some v
          | Option.none => Dict.get init f := by
  intro l
  induction l with
  | nil => intro init; simp [lastDecoded]
  | cons r t ih =>
    intro init
    rw [List.foldl_cons, ih]
    by_cases h : r.field = f
    · subst h
      cases hlast : lastDecoded dec t r.field with
      | none => simp [lastDecoded, hlast, Dict.get_set_self]
      | some v => simp [lastDecoded, hlast]
    · cases hlast : lastDecoded dec t f with
      | none => simp [lastDecoded, hlast, h, Dict.get_set_ne _ _ _ _ h]
      | some v => simp [lastDecoded, hlast, h]

lemma lastDecoded_of_filter_nil (dec : OverrideRecord → Value) (f : String)
    (l : List OverrideRecord) (h : l.filter (fun r => decide (r.field = f)) = []) :
    lastDecoded dec l f = Option.none := by
  induction l with
  | nil => simp [lastDecoded]
  | cons r t ih =>
    rw [List.filter_cons] at h
    by_cases hr : r.field = f
    · rw [if_pos (by simpa using hr)] at h
      simp at h
    · rw [if_neg (by simpa using hr)] at h
      simp [lastDecoded, hr, ih h]

lemma lastDecoded_of_filter_singleton (dec : OverrideRecord → Value) (f : String)
    (l : List OverrideRecord) (r0 : OverrideRecord)
    (h : l.filter (fun r => decide (r.field = f)) = [r0]) :
    lastDecoded dec l f = some (dec r0) := by
  induction l with
  | nil => simp at h
  | cons r t ih =>
    rw [List.filter_cons] at h
    by_cases hr : r.field = f
    · rw [if_pos (by simpa using hr)] at h
      injection h with h1 h2
      subst h1
      rw [lastDecoded, lastDecoded_of_filter_nil dec f t h2]
      simp [hr]
    · rw [if_neg (by simpa using hr)] at h
      simp [lastDecoded, hr, ih h]

lemma cachedEntry_none_getD (b : Block) (i : Nat) (h : b.cachedEntry i = Option.none) :
    Dict.get (b.ccx_overrides.getD []) i = Option.none := by
  cases hb : b.ccx_overrides with
  | none => simp [Dict.get]
  | some c => simpa [Block.cachedEntry, hb] using h

end StoreLemmas

section OperationLemmas

lemma attempt_ok_filter (store : List OverrideRecord) (ci : Nat) (loc : UsageKey)
    (f : String) (ser : SerializedJson) (st0 : List OverrideRecord)
    (h : overrideSaveAttempt store ci loc f ser = .ok st0) :
    (storeUpdateValue st0 ci loc f ser).filter (fun r => keyMatch r ci loc f)
      = [{ ccx := ci, location := loc, field := f, value := ser }] := by
  unfold overrideSaveAttempt storeCreate at h
  by_cases hany : store.any (fun r0 => keyMatch r0 ci loc f) = true
  · simp only [hany, if_true] at h
    unfold storeGet at h
    cases hfilter : store.filter (fun r => keyMatch r ci loc f) with
    | nil =>
      rw [filter_nil_iff_any_false] at hfilter
      rw [hfilter] at hany
      cases hany
    | cons r1 rest =>
      cases rest with
      | nil =>
        simp only [hfilter] at h
        cases h
        rw [filter_key_update, hfilter]
        have hr1 : keyMatch r1 ci loc f = true := by
          have := List.mem_filter.mp (by rw [hfilter]; exact List.mem_singleton_self r1)
          exact this.2
        obtain ⟨h1, h2, h3⟩ := keyMatch_components hr1
        simp [h1, h2, h3]
      | cons r2 rest2 =>
        simp only [hfilter] at h
        cases h
  · simp only [hany, if_false] at h
    cases h
    rw [filter_key_update, filter_key_append]
    have hnil : store.filter (fun r => keyMatch r ci loc f) = [] :=
      (filter_nil_iff_any_false _ _).mpr (Bool.eq_false_iff.mpr hany)
    rw [hnil]
    simp [keyMatch]

lemma attempt_ok_of_count (store : List OverrideRecord) (ci : Nat) (loc : UsageKey)
    (f : String) (ser : SerializedJson)
    (hcount : (store.filter (fun r => keyMatch r ci loc f)).length ≤ 1) :
    (overrideSaveAttempt store ci loc f ser = .ok (store ++
        [{ ccx := ci, location := loc, field := f, value := ser }]))
      ∨ overrideSaveAttempt store ci loc f ser = .ok store := by
  unfold overrideSaveAttempt storeCreate
  by_cases hany : store.any (fun r0 => keyMatch r0 ci loc f) = true
  · right
    simp only [hany, if_true]
    unfold storeGet
    cases hfilter : store.filter (fun r => keyMatch r ci loc f) with
    | nil =>
      rw [filter_nil_iff_any_false] at hfilter
      rw [hfilter] at hany
      cases hany
    | cons r1 rest =>
      cases rest with
      | nil => simp [hfilter]
      | cons r2 rest2 =>
        rw [hfilter] at hcount
        simp at hcount
  · left
    simp [hany]

lemma override_shape (db : Db) (ccx : CustomCourseForEdX) (block : Block) (name : String)
    (v : Value) (loc : UsageKey)
    (hloc : block.location = some loc)
    (hok : (override_field_for_ccx db ccx block name v).1 = .ok ()) :
    (override_field_for_ccx db ccx block name v).2.1.ccxTable = db.ccxTable ∧
    (override_field_for_ccx db ccx block name v).2.1.store.filter
        (fun r => keyMatch r ccx.id loc name)
      = [{ ccx := ccx.id, location := loc, field := name,
           value := json_dumps ((block.fields name).to_json v) }] ∧
    (override_field_for_ccx db ccx block name v).2.2.id = block.id ∧
    (override_field_for_ccx db ccx block name v).2.2.location = block.location ∧
    (override_field_for_ccx db ccx block name v).2.2.fields = block.fields ∧
    Block.cachedEntry ((override_field_for_ccx db ccx block name v).2.2) ccx.id
      = Option.none := by
  simp only [override_field_for_ccx, hloc] at hok
  cases hatt : overrideSaveAttempt db.store ccx.id loc name
      (json_dumps ((block.fields name).to_json v)) with
  | error e => simp [hatt] at hok
  | ok st0 =>
    cases hcache : block.ccx_overrides with
    | none =>
      have heq : override_field_for_ccx db ccx block name v
          = (.ok (), { db with store := (storeUpdateValue st0 ccx.id loc name
              (json_dumps ((block.fields name).to_json v))) }, block) := by
        simp [override_field_for_ccx, hloc, hatt, hcache]
      rw [heq]
      refine ⟨rfl, ?_, rfl, rfl, rfl, ?_⟩
      · exact attempt_ok_filter db.store ccx.id loc name _ st0 hatt
      · simp [Block.cachedEntry, hcache]
    | some cache =>
      cases hdel : Dict.del cache ccx.id with
      | none => simp [hatt, hcache, hdel] at hok
      | some cache1 =>
        have heq : override_field_for_ccx db ccx block name v
            = (.ok (), { db with store := (storeUpdateValue st0 ccx.id loc name
                (json_dumps ((block.fields name).to_json v))) },
               { block with ccx_overrides := some cache1 }) := by
          simp [override_field_for_ccx, hloc, hatt, hcache, hdel]
        rw [heq]
        refine ⟨rfl, ?_, rfl, rfl, rfl, ?_⟩
        · exact attempt_ok_filter db.store ccx.id loc name _ st0 hatt
        · simpa [Block.cachedEntry] using Dict.get_of_del cache cache1 ccx.id hdel

lemma override_ok_of_cache_none (db : Db) (ccx : CustomCourseForEdX) (block : Block)
    (name : String) (v : Value) (loc : UsageKey)
    (hloc : block.location = some loc)
    (hcache : block.ccx_overrides = Option.none)
    (hcount : (db.store.filter (fun r => keyMatch r ccx.id loc name)).length ≤ 1) :
    (override_field_for_ccx db ccx block name v).1 = .ok () ∧
    (override_field_for_ccx db ccx block name v).2.2 = block := by
  rcases attempt_ok_of_count db.store ccx.id loc name
      (json_dumps ((block.fields name).to_json v)) hcount with hatt | hatt <;>
    simp [override_field_for_ccx, hloc, hatt, hcache]

lemma clear_of_absent (db : Db) (ccx : CustomCourseForEdX) (block : Block) (name : String)
    (loc : UsageKey)
    (hloc : block.location = some loc)
    (habsent : db.store.filter (fun r => keyMatch r ccx.id loc name) = []) :
    clear_override_for_ccx db ccx block name = (.ok (), db, block) := by
  simp [clear_override_for_ccx, hloc, storeGet, habsent]

lemma clear_found_shape (db : Db) (ccx : CustomCourseForEdX) (block : Block) (name : String)
    (loc : UsageKey) (r0 : OverrideRecord)
    (hloc : block.location = some loc)
    (hfound : db.store.filter (fun r => keyMatch r ccx.id loc name) = [r0])
    (hok : (clear_override_for_ccx db ccx block name).1 = .ok ()) :
    (clear_override_for_ccx db ccx block name).2.1
      = { db with store := storeDelete db.store ccx.id loc name } ∧
    (clear_override_for_ccx db ccx block name).2.2.id = block.id ∧
    (clear_override_for_ccx db ccx block name).2.2.location = block.location ∧
    (clear_override_for_ccx db ccx block name).2.2.fields = block.fields ∧
    Block.cachedEntry ((clear_override_for_ccx db ccx block name).2.2) ccx.id
      = Option.none := by
  have hget : storeGet db.store ccx.id loc name = .ok r0 := by
    simp [storeGet, hfound]
  cases hcache : block.ccx_overrides with
  | none =>
    have heq : clear_override_for_ccx db ccx block name
        = (.ok (), { db with store := storeDelete db.store ccx.id loc name }, block) := by
      simp [clear_override_for_ccx, hloc, hget, hcache]
    rw [heq]
    exact ⟨rfl, rfl, rfl, rfl, by simp [Block.cachedEntry, hcache]⟩
  | some cache =>
    cases hdel : Dict.del cache ccx.id with
    | none => simp [clear_override_for_ccx, hloc, hget, hcache, hdel] at hok
    | some cache1 =>
      have heq : clear_override_for_ccx db ccx block name
          = (.ok (), { db with store := storeDelete db.store ccx.id loc name },
             { block with ccx_overrides := some cache1 }) := by
        simp [clear_override_for_ccx, hloc, hget, hcache, hdel]
      rw [heq]
      refine ⟨rfl, rfl, rfl, rfl, ?_⟩
      simpa [Block.cachedEntry] using Dict.get_of_del cache cache1 ccx.id hdel

lemma get_override_hit (db : Db) (ccx : CustomCourseForEdX) (block : Block)
    (name : String) (default : Value) (m : Overrides)
    (hm : Block.cachedEntry block ccx.id = some m) :
    (get_override_for_ccx db ccx block name default).1
      = .ok ((Dict.get m name).getD default) := by
  cases hc : block.ccx_overrides with
  | none => simp [Block.cachedEntry, hc] at hm
  | some cache =>
    simp only [Block.cachedEntry, hc] at hm
    simp [get_override_for_ccx, hc, hm]

lemma get_override_fetch (db : Db) (ccx : CustomCourseForEdX) (block : Block)
    (name : String) (default : Value) (loc : UsageKey)
    (hloc : block.location = some loc)
    (hbase : loc.isCCXBlock = false)
    (hmiss : Block.cachedEntry block ccx.id = Option.none) :
    (get_override_for_ccx db ccx block name default).1
      = .ok (match lastDecoded (decodeWith block)
                 (db.store.filter (fun r => locMatch r ccx.id loc)) name with
             | some v => v
             | Option.none => default) := by
  have hget0 : Dict.get (block.ccx_overrides.getD []) ccx.id = Option.none :=
    cachedEntry_none_getD block ccx.id hmiss
  have hunder : under_get_overrides_for_ccx db ccx
      { block with ccx_overrides := some (block.ccx_overrides.getD []) }
      = .ok ((db.store.filter (fun r => locMatch r ccx.id loc)).foldl
          (fun ov r => Dict.set ov r.field (decodeWith block r)) []) := by
    simp [under_get_overrides_for_ccx, hloc, hbase, decodeWith]
  rw [get_override_for_ccx]
  simp only [hget0, hunder]
  rw [get_foldl_set (decodeWith block) name]
  cases hlast : lastDecoded (decodeWith block)
      (db.store.filter (fun r => locMatch r ccx.id loc)) name with
  | none => simp [hlast, Dict.get]
  | some v => simp [hlast]

lemma resolve_congr (b1 b : Block) (h1 : b1.id = b.id) (h2 : b1.location = b.location) :
    resolve_course_id b1 = resolve_course_id b := by
  unfold resolve_course_id
  rw [h1, h2]

end OperationLemmas

section Claims

/-- C2: for every block whose identifier does not resolve to a context-qualified course
key, and for every field name and default value, the provider's `get` returns exactly
the caller-supplied default unchanged, leaves the block untouched, performs no
override-store query, and logs an error exactly when no course id resolved at all. -/
theorem c2_default_fast_path (db : Db) (block : Block) (name : String) (default : Value)
    (h : ((resolve_course_id block).1.map CourseKey.isCCX) ≠ some true) :
    CustomCoursesForEdxOverrideProvider.get db block name default
      = (.ok default, block, 0, (resolve_course_id block).2) := by
  rw [CustomCoursesForEdxOverrideProvider.get]
  cases hres : (resolve_course_id block).1 with
  | none => simp [hres]
  | some k =>
    cases k with
    | plain c => simp [hres, get_current_ccx]
    | ccxLoc c i =>
      rw [hres] at h
      simp [CourseKey.isCCX] at h

/-- Witness for C2 at a concrete plain-course block. -/
theorem c2_witness :
    CustomCoursesForEdxOverrideProvider.get db0 blockPlain "f" (Value.int 3)
      = (.ok (Value.int 3), blockPlain, 0, (resolve_course_id blockPlain).2) :=
  c2_default_fast_path db0 blockPlain "f" (Value.int 3) (by decide)

/-- C7: `clear_override_for_ccx` on a (context, block, field) with no existing override
record returns normally, raises nothing, and leaves the store (and the block) exactly
unchanged: the DoesNotExist from the fetch is swallowed by the idempotent-delete
handler. -/
theorem c7_clear_idempotent (db : Db) (ccx : CustomCourseForEdX) (block : Block)
    (name : String) (loc : UsageKey)
    (hloc : block.location = some loc)
    (habsent : db.store.filter (fun r => keyMatch r ccx.id loc name) = []) :
    clear_override_for_ccx db ccx block name = (.ok (), db, block) :=
  clear_of_absent db ccx block name loc hloc habsent

/-- Witness for C7 at a concrete block over an empty store. -/
theorem c7_witness :
    clear_override_for_ccx db0 ccx1 blockBase "f" = (.ok (), db0, blockBase) :=
  c7_clear_idempotent db0 ccx1 blockBase "f" baseLoc rfl rfl

/-- C8: for a block whose identifier is neither a course key nor a usage key and that
has no location attribute, the provider logs an error (final component `true`), raises
nothing, performs no store access, and returns the caller's default. -/
theorem c8_resolution_degrade (db : Db) (block : Block) (name : String) (default : Value)
    (hid : block.id = Identifier.unrecognized)
    (hloc : block.location = Option.none) :
    CustomCoursesForEdxOverrideProvider.get db block name default
      = (.ok default, block, 0, true) := by
  simp [CustomCoursesForEdxOverrideProvider.get, resolve_course_id, hid, hloc]

/-- Witness for C8 at a concrete keyless block. -/
theorem c8_witness :
    CustomCoursesForEdxOverrideProvider.get db0 blockNoKeys "f" Value.none
      = (.ok Value.none, blockNoKeys, 0, true) :=
  c8_resolution_degrade db0 blockNoKeys "f" Value.none rfl rfl

/-- C9: when the embedded ccx id of a context-qualified course key has no
CustomCourseForEdX record, `get_current_ccx` raises DoesNotExist, and the error
propagates unswallowed through the provider's `get` for a block resolving to that
key. -/
theorem c9_ccx_not_found (db : Db) (c i : Nat) (block : Block) (name : String)
    (default : Value)
    (hi : db.ccxTable.contains i = false)
    (hb : block.id = Identifier.courseKey (CourseKey.ccxLoc c i)) :
    get_current_ccx db (CourseKey.ccxLoc c i) = .error .doesNotExist ∧
    (CustomCoursesForEdxOverrideProvider.get db block name default).1
      = .error .doesNotExist := by
  have h1 : get_current_ccx db (CourseKey.ccxLoc c i) = .error .doesNotExist := by
    have hdef : get_current_ccx db (CourseKey.ccxLoc c i)
        = if db.ccxTable.contains i then .ok (some ⟨i⟩) else .error .doesNotExist := rfl
    rw [hdef, if_neg (fun hcon => by rw [hi] at hcon; cases hcon)]
  refine ⟨h1, ?_⟩
  simp [CustomCoursesForEdxOverrideProvider.get, resolve_course_id, hb, h1]

/-- Witness for C9 at a concrete block naming ccx 2, absent from the table. -/
theorem c9_witness :
    get_current_ccx db0 (CourseKey.ccxLoc 7 2) = .error .doesNotExist ∧
    (CustomCoursesForEdxOverrideProvider.get db0 blockMissingCcx "f" Value.none).1
      = .error .doesNotExist :=
  c9_ccx_not_found db0 7 2 blockMissingCcx "f" Value.none (by decide) rfl

/-- C1 counterexample: with a block whose location is context-qualified, the set/get
round trip does not return the written value.  Writing 5 to field "f" and reading it
back (block resolving to ccx 1) yields the default 0: the write stored the row under
the qualified location while the read queries the base location. -/
theorem c1_counterexample :
    (CustomCoursesForEdxOverrideProvider.get
        (override_field_for_ccx db0 ccx1 blockQual "f" (Value.int 5)).2.1
        (override_field_for_ccx db0 ccx1 blockQual "f" (Value.int 5)).2.2
        "f" (Value.int 0)).1 = .ok (Value.int 0) ∧
    (Value.int 0 : Value) ≠ Value.int 5 := by
  exact ⟨rfl, by decide⟩

/-- C1 (amended): for a block whose location is in base (non-context-qualified) form,
if the field codec round-trips on D and `override_field_for_ccx` returns normally,
then the provider's `get` on the resulting state (with the block resolving to the
ccx's context-qualified course key) returns D, decoded via the field's own codec. -/
theorem c1_round_trip_base (db : Db) (ccx : CustomCourseForEdX) (block : Block)
    (name : String) (d default : Value) (loc : UsageKey) (c : Nat)
    (hloc : block.location = some loc)
    (hbase : loc.isCCXBlock = false)
    (hcodec : (block.fields name).from_json ((block.fields name).to_json d) = d)
    (hok : (override_field_for_ccx db ccx block name d).1 = .ok ())
    (hres : (resolve_course_id block).1 = some (CourseKey.ccxLoc c ccx.id))
    (hmem : db.ccxTable.contains ccx.id = true) :
    (CustomCoursesForEdxOverrideProvider.get
        (override_field_for_ccx db ccx block name d).2.1
        (override_field_for_ccx db ccx block name d).2.2 name default).1 = .ok d := by
  obtain ⟨htable, hfilter, hid, hlocp, hfieldsp, hcachenone⟩ :=
    override_shape db ccx block name d loc hloc hok
  have hres1 : (resolve_course_id (override_field_for_ccx db ccx block name d).2.2).1
      = some (CourseKey.ccxLoc c ccx.id) := by
    rw [resolve_congr _ _ hid hlocp, hres]
  have hccx : get_current_ccx (override_field_for_ccx db ccx block name d).2.1
      (CourseKey.ccxLoc c ccx.id) = .ok (some ⟨ccx.id⟩) := by
    have hdef : get_current_ccx (override_field_for_ccx db ccx block name d).2.1
        (CourseKey.ccxLoc c ccx.id)
        = if (override_field_for_ccx db ccx block name d).2.1.ccxTable.contains ccx.id
          then .ok (some ⟨ccx.id⟩) else .error .doesNotExist := rfl
    rw [hdef, htable, if_pos hmem]
  have hprov : (CustomCoursesForEdxOverrideProvider.get
        (override_field_for_ccx db ccx block name d).2.1
        (override_field_for_ccx db ccx block name d).2.2 name default).1
      = (get_override_for_ccx (override_field_for_ccx db ccx block name d).2.1
          ⟨ccx.id⟩ (override_field_for_ccx db ccx block name d).2.2 name default).1 := by
    rw [CustomCoursesForEdxOverrideProvider.get]
    simp only [hres1, hccx]
  rw [hprov]
  rw [get_override_fetch _ ⟨ccx.id⟩ _ name default loc (by rw [hlocp, hloc]) hbase
    hcachenone]
  have hlast : lastDecoded (decodeWith (override_field_for_ccx db ccx block name d).2.2)
      ((override_field_for_ccx db ccx block name d).2.1.store.filter
        (fun r => locMatch r ccx.id loc)) name
      = some (decodeWith (override_field_for_ccx db ccx block name d).2.2
          { ccx := ccx.id, location := loc, field := name,
            value := json_dumps ((block.fields name).to_json d) }) := by
    apply lastDecoded_of_filter_singleton
    rw [filter_loc_then_field]
    exact hfilter
  rw [hlast]
  simp only [decodeWith, hfieldsp, json_loads, json_dumps]
  exact congrArg Except.ok hcodec

/-- Witness for C1 at a concrete base-form block: write 5, read 5 back. -/
theorem c1_witness :
    (CustomCoursesForEdxOverrideProvider.get
        (override_field_for_ccx db0 ccx1 blockBase "f" (Value.int 5)).2.1
        (override_field_for_ccx db0 ccx1 blockBase "f" (Value.int 5)).2.2
        "f" Value.none).1 = .ok (Value.int 5) :=
  c1_round_trip_base db0 ccx1 blockBase "f" (Value.int 5) Value.none baseLoc 7
    rfl rfl rfl rfl rfl rfl

/-- C3, evaluated at the failing input: setting a field on a block whose location is a
context-qualified CCXBlockUsageLocator persists the record with the qualified
location, not the base form required by the spec's stored-location invariant — the
stored location still carries the ccx qualifier, unlike the read path, which strips
it. -/
theorem c3_qualified_location_stored :
    ((override_field_for_ccx db0 ccx1 blockQual "f" (Value.int 5)).2.1).store
      = [{ ccx := 1, location := qualLoc, field := "f",
           value := json_dumps (Json.num 5) }] ∧
    UsageKey.isCCXBlock qualLoc = true ∧
    qualLoc ≠ qualLoc.to_block_locator :=
  ⟨rfl, rfl, by decide⟩

/-- C4 counterexample: when the block carries a `_ccx_overrides` dict, the first set
consumes its entry for the ccx, so the second set's cache invalidation raises KeyError
(visible to the caller) and its update is rolled back: the single stored record still
holds the serialized first value, not the second. -/
theorem c4_counterexample :
    (override_field_for_ccx
        (override_field_for_ccx db0 ccx1 blockCacheEntry1 "f" (Value.int 1)).2.1 ccx1
        (override_field_for_ccx db0 ccx1 blockCacheEntry1 "f" (Value.int 1)).2.2
        "f" (Value.int 2)).1 = .error .keyError ∧
    (override_field_for_ccx
        (override_field_for_ccx db0 ccx1 blockCacheEntry1 "f" (Value.int 1)).2.1 ccx1
        (override_field_for_ccx db0 ccx1 blockCacheEntry1 "f" (Value.int 1)).2.2
        "f" (Value.int 2)).2.1.store
      = [{ ccx := 1, location := baseLoc, field := "f",
           value := json_dumps (Json.num 1) }] :=
  ⟨rfl, rfl⟩

/-- C4 (amended): for a block carrying no `_ccx_overrides` cache attribute (e.g. a
freshly loaded block), calling `override_field_for_ccx` twice with values V1 then V2
for the same (ccx, block, field) succeeds both times (the uniqueness conflict on the
second insert is recovered into an update, invisibly), and leaves exactly one stored
record for that key, holding the serialized form of V2. -/
theorem c4_set_twice (db : Db) (ccx : CustomCourseForEdX) (block : Block) (name : String)
    (v1 v2 : Value) (loc : UsageKey)
    (hloc : block.location = some loc)
    (hcache : block.ccx_overrides = Option.none)
    (hcount : (db.store.filter (fun r => keyMatch r ccx.id loc name)).length ≤ 1) :
    (override_field_for_ccx db ccx block name v1).1 = .ok () ∧
    (override_field_for_ccx (override_field_for_ccx db ccx block name v1).2.1 ccx
        (override_field_for_ccx db ccx block name v1).2.2 name v2).1 = .ok () ∧
    ((override_field_for_ccx (override_field_for_ccx db ccx block name v1).2.1 ccx
        (override_field_for_ccx db ccx block name v1).2.2 name v2).2.1.store.filter
      (fun r => keyMatch r ccx.id loc name))
      = [{ ccx := ccx.id, location := loc, field := name,
           value := json_dumps ((block.fields name).to_json v2) }] := by
  obtain ⟨hok1, hblock1⟩ :=
    override_ok_of_cache_none db ccx block name v1 loc hloc hcache hcount
  obtain ⟨htable1, hfilter1, _, _, _, _⟩ :=
    override_shape db ccx block name v1 loc hloc hok1
  have hcount1 : ((override_field_for_ccx db ccx block name v1).2.1.store.filter
      (fun r => keyMatch r ccx.id loc name)).length ≤ 1 := by
    rw [hfilter1]
    simp
  rw [hblock1]
  obtain ⟨hok2, _⟩ := override_ok_of_cache_none
    (override_field_for_ccx db ccx block name v1).2.1 ccx block name v2 loc hloc hcache
    hcount1
  obtain ⟨_, hfilter2, _, _, _, _⟩ := override_shape
    (override_field_for_ccx db ccx block name v1).2.1 ccx block name v2 loc hloc hok2
  exact ⟨hok1, hok2, hfilter2⟩

/-- Witness for C4 at a concrete cache-free block: set 1 then 2, one record with 2. -/
theorem c4_witness :
    (override_field_for_ccx db0 ccx1 blockBase "f" (Value.int 1)).1 = .ok () ∧
    (override_field_for_ccx (override_field_for_ccx db0 ccx1 blockBase "f" (Value.int 1)).2.1
        ccx1 (override_field_for_ccx db0 ccx1 blockBase "f" (Value.int 1)).2.2
        "f" (Value.int 2)).1 = .ok () ∧
    ((override_field_for_ccx (override_field_for_ccx db0 ccx1 blockBase "f" (Value.int 1)).2.1
        ccx1 (override_field_for_ccx db0 ccx1 blockBase "f" (Value.int 1)).2.2
        "f" (Value.int 2)).2.1.store.filter
      (fun r => keyMatch r ccx1.id baseLoc "f"))
      = [{ ccx := ccx1.id, location := baseLoc, field := "f",
           value := json_dumps ((blockBase.fields "f").to_json (Value.int 2)) }] :=
  c4_set_twice db0 ccx1 blockBase "f" (Value.int 1) (Value.int 2) baseLoc rfl rfl
    (by decide)

/-- C5 counterexample: when `clear_override_for_ccx` finds no stored record while a
cached entry for the context exists, the cached entry is NOT removed (the deletion
sits inside the try block after the failed fetch), and a subsequent read serves the
stale cached value with zero store queries instead of re-fetching. -/
theorem c5_counterexample :
    (clear_override_for_ccx db0 ccx1 blockCached "f").1 = .ok () ∧
    Block.cachedEntry ((clear_override_for_ccx db0 ccx1 blockCached "f").2.2) 1
      = some [("f", Value.int 7)] ∧
    (get_override_for_ccx (clear_override_for_ccx db0 ccx1 blockCached "f").2.1 ccx1
        (clear_override_for_ccx db0 ccx1 blockCached "f").2.2 "f" (Value.int 0)).1
      = .ok (Value.int 7) ∧
    (get_override_for_ccx (clear_override_for_ccx db0 ccx1 blockCached "f").2.1 ccx1
        (clear_override_for_ccx db0 ccx1 blockCached "f").2.2 "f" (Value.int 0)).2.2
      = 0 :=
  ⟨rfl, rfl, rfl, rfl⟩

/-- C5 (amended): a successful `override_field_for_ccx` removes the block's cached
entry for the context id, and so does a successful `clear_override_for_ccx` that
found a stored record; but a clear that finds no stored record performs no cache
invalidation (see the counterexample), and the removal itself raises KeyError when
the cache dict exists without that entry (claim C10). -/
theorem c5_cache_invalidation (db : Db) (ccx : CustomCourseForEdX) (block : Block)
    (name : String) (loc : UsageKey) (v : Value)
    (hloc : block.location = some loc) :
    ((override_field_for_ccx db ccx block name v).1 = .ok () →
        Block.cachedEntry ((override_field_for_ccx db ccx block name v).2.2) ccx.id
          = Option.none) ∧
    ((clear_override_for_ccx db ccx block name).1 = .ok () →
      db.store.filter (fun r => keyMatch r ccx.id loc name) ≠ [] →
        Block.cachedEntry ((clear_override_for_ccx db ccx block name).2.2) ccx.id
          = Option.none) := by
  constructor
  · intro hok
    exact (override_shape db ccx block name v loc hloc hok).2.2.2.2.2
  · intro hok hne
    cases hfilter : db.store.filter (fun r => keyMatch r ccx.id loc name) with
    | nil => exact absurd hfilter hne
    | cons r rest =>
      cases rest with
      | nil => exact (clear_found_shape db ccx block name loc r hloc hfilter hok).2.2.2.2
      | cons r2 rest2 =>
        have hmult : (clear_override_for_ccx db ccx block name).1
            = .error .multipleObjectsReturned := by
          simp [clear_override_for_ccx, hloc, storeGet, hfilter]
        rw [hmult] at hok
        cases hok

/-- Witness for C5: a set on a cached block, and a record-finding clear on a cached
block, both leave no cached entry for ccx 1. -/
theorem c5_witness :
    Block.cachedEntry ((override_field_for_ccx db0 ccx1 blockCached "f" (Value.int 5)).2.2) 1
      = Option.none ∧
    Block.cachedEntry ((clear_override_for_ccx dbWithRec ccx1 blockCached "f").2.2) 1
      = Option.none :=
  ⟨(c5_cache_invalidation db0 ccx1 blockCached "f" baseLoc (Value.int 5) rfl).1 rfl,
   (c5_cache_invalidation dbWithRec ccx1 blockCached "f" baseLoc (Value.int 5) rfl).2 rfl
     (by decide)⟩

/-- C6 counterexample: with no stored record but a stale cached entry mapping the
field, `clear_override_for_ccx` succeeds without touching the cache and the following
`get_override_for_ccx` returns the stale cached 7, not the supplied default 3. -/
theorem c6_counterexample :
    (clear_override_for_ccx db0 ccx1 blockCached "f").1 = .ok () ∧
    (get_override_for_ccx (clear_override_for_ccx db0 ccx1 blockCached "f").2.1 ccx1
        (clear_override_for_ccx db0 ccx1 blockCached "f").2.2 "f" (Value.int 3)).1
      = .ok (Value.int 7) ∧
    (Value.int 7 : Value) ≠ Value.int 3 :=
  ⟨rfl, rfl, by decide⟩

/-- C6 (amended): `clear_override_for_ccx` followed by `get_override_for_ccx` with
default X returns X for every prior store state, provided the block's location is in
base form, the clear returned normally, and the block's cached mapping for the
context (if one exists) does not already hold a stale value for the field when no
stored record exists. -/
theorem c6_clear_then_get (db : Db) (ccx : CustomCourseForEdX) (block : Block)
    (name : String) (X : Value) (loc : UsageKey)
    (hloc : block.location = some loc)
    (hbase : loc.isCCXBlock = false)
    (hok : (clear_override_for_ccx db ccx block name).1 = .ok ())
    (hstale : ∀ m, Block.cachedEntry block ccx.id = some m →
        db.store.filter (fun r => keyMatch r ccx.id loc name) = [] →
        Dict.get m name = Option.none) :
    (get_override_for_ccx (clear_override_for_ccx db ccx block name).2.1 ccx
        (clear_override_for_ccx db ccx block name).2.2 name X).1 = .ok X := by
  cases hfilter : db.store.filter (fun r => keyMatch r ccx.id loc name) with
  | nil =>
    have hclear := clear_of_absent db ccx block name loc hloc hfilter
    rw [hclear]
    cases hcached : Block.cachedEntry block ccx.id with
    | some m =>
      have hmn := hstale m hcached hfilter
      rw [get_override_hit db ccx block name X m hcached, hmn]
      rfl
    | none =>
      rw [get_override_fetch db ccx block name X loc hloc hbase hcached]
      have hnil2 : (db.store.filter (fun r => locMatch r ccx.id loc)).filter
          (fun r => decide (r.field = name)) = [] := by
        rw [filter_loc_then_field]
        exact hfilter
      rw [lastDecoded_of_filter_nil _ _ _ hnil2]
  | cons r rest =>
    cases rest with
    | nil =>
      obtain ⟨hdb2, hid2, hloc2, hfields2, hcache2⟩ :=
        clear_found_shape db ccx block name loc r hloc hfilter hok
      rw [get_override_fetch _ ccx _ name X loc (by rw [hloc2, hloc]) hbase hcache2]
      have hnil2 : (((clear_override_for_ccx db ccx block name).2.1).store.filter
          (fun r0 => locMatch r0 ccx.id loc)).filter
          (fun r0 => decide (r0.field = name)) = [] := by
        rw [filter_loc_then_field, hdb2]
        exact filter_key_delete db.store ccx.id loc name
      rw [lastDecoded_of_filter_nil _ _ _ hnil2]
    | cons r2 rest2 =>
      have hmult : (clear_override_for_ccx db ccx block name).1
          = .error .multipleObjectsReturned := by
        simp [clear_override_for_ccx, hloc, storeGet, hfilter]
      rw [hmult] at hok
      cases hok

/-- Witness for C6: clearing the stored record then reading returns the default 3. -/
theorem c6_witness :
    (get_override_for_ccx (clear_override_for_ccx dbWithRec ccx1 blockBase "f").2.1 ccx1
        (clear_override_for_ccx dbWithRec ccx1 blockBase "f").2.2 "f" (Value.int 3)).1
      = .ok (Value.int 3) :=
  c6_clear_then_get dbWithRec ccx1 blockBase "f" (Value.int 3) baseLoc rfl rfl rfl
    (fun _ hm _ => nomatch hm)

/-- C10 counterexample: with a cache dict present but no entry for the context,
`override_field_for_ccx` raises an uncaught KeyError, but its store mutation has NOT
taken effect when the error escapes: the commit-on-success wrapper rolls the insert
back, leaving the store exactly as before. -/
theorem c10_counterexample :
    (override_field_for_ccx db0 ccx1 blockEmptyCache "f" (Value.int 5)).1
      = .error .keyError ∧
    (override_field_for_ccx db0 ccx1 blockEmptyCache "f" (Value.int 5)).2.1 = db0 :=
  ⟨rfl, rfl⟩

/-- C10 (amended): when the block's `_ccx_overrides` dict exists without an entry for
the context id, `override_field_for_ccx` raises an uncaught KeyError with its store
write rolled back by the commit-on-success transaction wrapper (state unchanged),
while `clear_override_for_ccx`, when it finds the record, raises the uncaught
KeyError only after the unwrapped row deletion has taken effect. -/
theorem c10_cache_keyerror (db : Db) (ccx : CustomCourseForEdX) (block : Block)
    (name : String) (v : Value) (loc : UsageKey) (m : CcxCache)
    (hloc : block.location = some loc)
    (hcache : block.ccx_overrides = some m)
    (hmiss : Dict.get m ccx.id = Option.none)
    (hcount : (db.store.filter (fun r => keyMatch r ccx.id loc name)).length ≤ 1) :
    override_field_for_ccx db ccx block name v = (.error .keyError, db, block) ∧
    (∀ r0, db.store.filter (fun r => keyMatch r ccx.id loc name) = [r0] →
      clear_override_for_ccx db ccx block name
        = (.error .keyError, { db with store := storeDelete db.store ccx.id loc name },
           block)) := by
  have hdel : Dict.del m ccx.id = Option.none := (Dict.del_eq_none_iff m ccx.id).mpr hmiss
  constructor
  · rcases attempt_ok_of_count db.store ccx.id loc name
        (json_dumps ((block.fields name).to_json v)) hcount with hatt | hatt <;>
      simp [override_field_for_ccx, hloc, hatt, hcache, hdel]
  · intro r0 hr0
    have hget : storeGet db.store ccx.id loc name = .ok r0 := by
      simp [storeGet, hr0]
    simp [clear_override_for_ccx, hloc, hget, hcache, hdel]

/-- Witness for C10 with one stored record: the set raises KeyError leaving the state
unchanged; the clear raises KeyError with the record already deleted. -/
theorem c10_witness :
    override_field_for_ccx dbWithRec ccx1 blockEmptyCache "f" (Value.int 5)
      = (.error .keyError, dbWithRec, blockEmptyCache) ∧
    clear_override_for_ccx dbWithRec ccx1 blockEmptyCache "f"
      = (.error .keyError,
         { dbWithRec with store := storeDelete dbWithRec.store ccx1.id baseLoc "f" },
         blockEmptyCache) := by
  obtain ⟨h1, h2⟩ := c10_cache_keyerror dbWithRec ccx1 blockEmptyCache "f" (Value.int 5)
    baseLoc [] rfl rfl rfl (by decide)
  exact ⟨h1, h2 { ccx := 1, location := baseLoc, field := "f",
                  value := json_dumps (Json.num 9) } (by decide)⟩

end Claims

end Ccx
